import Mathlib

/-!
# Verification of the disk_manager backend (src/backed/src/main.rs)

A shallow embedding of the path-resolution logic and the five HTTP
handlers (`create_folder`, `upload_file`, `list_files`, `download_file`,
`delete_file`) of the Rust service, together with theorems about them.

The filesystem is modelled as an association list from paths to nodes
(`FS`).  I/O failures that are not determined by the modelled filesystem
state (write errors, file-type query races, archiving-step errors) are
modelled by explicit oracles passed to the handlers, mirroring exactly
the points where the Rust code consults a fallible operation.
-/

/-- A filesystem path as Rust's `PathBuf` sees it: an absoluteness flag
plus the list of components.  Empty components are dropped, `"."` and
`".."` are kept as ordinary components (lexical, un-normalized form). -/
structure RPath where
  absolute : Bool
  comps : List String
deriving DecidableEq, Repr

/-- Character-level split on the separator: `segsAux acc cs` carries the
(reversed) current segment in `acc` and emits a segment at every `'/'`. -/
def segsAux : List Char → List Char → List String
  | acc, [] => [String.mk acc.reverse]
  | acc, c :: rest =>
    if c = '/' then String.mk acc.reverse :: segsAux [] rest
    else segsAux (c :: acc) rest

/-- Split a path string into its components: split on `'/'` and drop
empty segments. -/
def pathComponents (s : String) : List String :=
  (segsAux [] s.data).filter (fun c => decide (c ≠ ""))

/-- Whether a path string starts with the separator character. -/
def startsWithSlash (s : String) : Bool :=
  match s.data with
  | [] => false
  | c :: _ => decide (c = '/')

/-- Parse a string into a path (Rust `Path::new`). -/
def parsePath (s : String) : RPath :=
  { absolute := startsWithSlash s, comps := pathComponents s }

/-- Rust `PathBuf::join`: an absolute argument replaces the base path,
otherwise the argument's components are appended to the base's. -/
def RPath.join (base : RPath) (s : String) : RPath :=
  let q := parsePath s
  if q.absolute then q
  else { absolute := base.absolute, comps := base.comps ++ q.comps }

/-- Rust `Path::parent().unwrap_or(&path)`: drop the last component;
a path with no components is its own parent. -/
def RPath.parentDir (p : RPath) : RPath :=
  if p.comps = [] then p else { p with comps := p.comps.dropLast }

/-- The fixed storage root `PathBuf::from("storage")` (main.rs line 51). -/
def storageRoot : RPath := { absolute := false, comps := ["storage"] }

/-- Embedding of `sub.contains("..")`: the character list contains two consecutive
dots. -/
def hasDotDot : List Char → Bool
  | [] => false
  | [_] => false
  | a :: b :: rest => (decide (a = '.') && decide (b = '.')) || hasDotDot (b :: rest)

/-- Embedding of `sub.trim_start_matches('/')`: drop every leading separator. -/
def trimLeadingSlashes (s : String) : String :=
  String.mk (s.data.dropWhile (fun c => decide (c = '/')))

/-- Embedding of `resolve_path` from main.rs (lines 50-62): reject any input
containing `".."`, otherwise join the storage root with the input
stripped of leading slashes; an absent input is treated as `""`. -/
def resolve_path (subpath : Option String) : Except String RPath :=
  let base := storageRoot
  let sub := subpath.getD ""
  if hasDotDot sub.data then
    Except.error "Invalid path"
  else
    let clean_sub := trimLeadingSlashes sub
    Except.ok (base.join clean_sub)

/-- Lexical normalization of a component list: `"."` is dropped and
`".."` removes the preceding component.  Used only to state that a
path escapes a directory; the Rust code never normalizes. -/
def normStep (acc : List String) (c : String) : List String :=
  if c = "." then acc
  else if c = ".." then acc.dropLast
  else acc ++ [c]

/-- Normalize a whole component list. -/
def normComps (cs : List String) : List String := cs.foldl normStep []

/-- A node of the modelled filesystem: a regular file with byte content,
or a directory. -/
inductive Node
  | file (content : List Nat)
  | dir
deriving DecidableEq, Repr

/-- The modelled filesystem: an association list from paths to nodes. -/
abbrev FS := List (RPath × Node)

/-- Look up the node stored at a path. -/
def FS.lookup : FS → RPath → Option Node
  | [], _ => none
  | (q, n) :: rest, p => if q = p then some n else FS.lookup rest p

/-- Embedding of `path.exists()`. -/
def FS.existsAt (fs : FS) (p : RPath) : Bool :=
  (FS.lookup fs p).isSome

/-- Embedding of `path.is_dir()`. -/
def FS.isDir (fs : FS) (p : RPath) : Bool :=
  match FS.lookup fs p with
  | some Node.dir => true
  | _ => false

/-- Embedding of `path.is_file()`. -/
def FS.isFile (fs : FS) (p : RPath) : Bool :=
  match FS.lookup fs p with
  | some (Node.file _) => true
  | _ => false

/-- Store a node at a path, replacing any previous node there
(`fs::write` semantics for files). -/
def FS.insert (fs : FS) (p : RPath) (n : Node) : FS :=
  (p, n) :: fs.filter (fun e => decide (e.1 ≠ p))

/-- Holds when `q` lies inside the subtree rooted at `p` (including `p` itself),
lexically: same absoluteness and `p.comps` is an initial segment. -/
def FS.isUnder (q p : RPath) : Bool :=
  (q.absolute == p.absolute) && decide (q.comps.take p.comps.length = p.comps)

/-- Holds when `q` is an immediate child of `p`. -/
def FS.isChildOf (q p : RPath) : Bool :=
  FS.isUnder q p && decide (q.comps.length = p.comps.length + 1)

/-- Embedding of `fs::remove_dir_all`: drop the path and everything below it. -/
def FS.removeTree (fs : FS) (p : RPath) : FS :=
  fs.filter (fun e => !FS.isUnder e.1 p)

/-- Embedding of `fs::remove_file`: drop a single path. -/
def FS.removeKey (fs : FS) (p : RPath) : FS :=
  fs.filter (fun e => decide (e.1 ≠ p))

/-- The directory-chain builder behind `fs::create_dir_all`: walk the
components, creating each missing prefix as a directory and failing if
some prefix already exists as a regular file. -/
def mkDirChain (abs : Bool) : FS → List String → List String → Except String FS
  | fs, _, [] => Except.ok fs
  | fs, done, c :: rest =>
    let cur : RPath := { absolute := abs, comps := done ++ [c] }
    match FS.lookup fs cur with
    | some (Node.file _) => Except.error "File exists"
    | some Node.dir => mkDirChain abs fs (done ++ [c]) rest
    | none => mkDirChain abs (FS.insert fs cur Node.dir) (done ++ [c]) rest

/-- Embedding of `fs::create_dir_all(path)` on the modelled filesystem. -/
def create_dir_all (fs : FS) (p : RPath) : Except String FS :=
  mkDirChain p.absolute fs [] p.comps

/-- Response of the `create_folder` handler. -/
inductive CreateResult
  | created
  | conflict
  | badRequest (msg : String)
  | serverError (msg : String)
deriving DecidableEq, Repr

/-- Embedding of `create_folder` from main.rs (lines 74-87): resolve the path
(400 on failure), answer 409 if the target already exists, otherwise
create the full directory chain (500 on an underlying failure). -/
def create_folder (fs : FS) (path : String) : FS × CreateResult :=
  match resolve_path (some path) with
  | Except.error e => (fs, CreateResult.badRequest e)
  | Except.ok p =>
    if FS.existsAt fs p then (fs, CreateResult.conflict)
    else
      match create_dir_all fs p with
      | Except.ok fs2 => (fs2, CreateResult.created)
      | Except.error e => (fs, CreateResult.serverError e)

/-- One event of the multipart stream consumed by `upload_file`:
either `next_field()` returns an error (which the Rust code `unwrap`s,
panicking), or it yields a part carrying an optional file name and the
result of reading the part body. -/
inductive PartEvent
  | frameErr (msg : String)
  | part (fileName : Option String) (bytes : Except String (List Nat))
deriving Repr

/-- Response of the `upload_file` handler; `panicked` records the
`unwrap` on a failed `next_field()`. -/
inductive UploadResult
  | ok
  | badRequest (msg : String)
  | serverError (msg : String)
  | panicked (msg : String)
deriving DecidableEq, Repr

/-- The `while let` loop of `upload_file` (lines 98-117): parts are
processed sequentially; a part with no or an empty file name is
skipped; a body-read error yields 400; the bytes are written to
`target_dir.join(file_name)` with a write error yielding 500.
`writeErr` is the oracle for `fs::write` failures. -/
def uploadLoop (writeErr : RPath → Option String) :
    FS → RPath → List PartEvent → FS × UploadResult
  | fs, _, [] => (fs, UploadResult.ok)
  | fs, _, PartEvent.frameErr m :: _ => (fs, UploadResult.panicked m)
  | fs, targetDir, PartEvent.part fname bytes :: rest =>
    match fname with
    | none => uploadLoop writeErr fs targetDir rest
    | some file_name =>
      if file_name = "" then uploadLoop writeErr fs targetDir rest
      else
        match bytes with
        | Except.error e => (fs, UploadResult.badRequest e)
        | Except.ok data =>
          let path := targetDir.join file_name
          match writeErr path with
          | some e => (fs, UploadResult.serverError e)
          | none => uploadLoop writeErr (FS.insert fs path (Node.file data)) targetDir rest

/-- Embedding of `upload_file` from main.rs (lines 89-120): resolve the destination
(400 on failure) and run the part loop. -/
def upload_file (writeErr : RPath → Option String) (fs : FS)
    (qpath : Option String) (parts : List PartEvent) : FS × UploadResult :=
  match resolve_path qpath with
  | Except.error e => (fs, UploadResult.badRequest e)
  | Except.ok targetDir => uploadLoop writeErr fs targetDir parts

/-- One element of the JSON array returned by `list_files`. -/
structure FileEntry where
  name : String
  is_dir : Bool
deriving DecidableEq, Repr

/-- Embedding of `list_files` from main.rs (lines 122-139): resolve the path (400 on
failure); if `read_dir` succeeds (the resolved path is a directory)
emit one entry per immediate child, with `is_dir` falling back to
`false` when the file-type query fails (`ftErr` oracle); otherwise the
entry list stays empty. -/
def list_files (ftErr : RPath → Bool) (fs : FS) (qpath : Option String) :
    Except String (List FileEntry) :=
  match resolve_path qpath with
  | Except.error e => Except.error e
  | Except.ok p =>
    if FS.isDir fs p then
      Except.ok ((fs.filter (fun e => FS.isChildOf e.1 p)).map (fun e =>
        { name := e.1.comps.getLastD ""
          is_dir := if ftErr e.1 then false
                    else decide (e.2 = Node.dir) }))
    else
      Except.ok []

/-- One member of the zip archive produced for a directory download.
`stored` records that the entry was written with the `Stored`
(no-deflate) compression method. -/
structure ZipEntry where
  name : String
  stored : Bool
  content : List Nat
deriving DecidableEq, Repr

/-- Failure oracles for the archiving closure of `download_file`, one
per fallible step in source order: the `WalkDir` entry itself
(line 183), `zip.start_file` (189), `File::open` (190),
`read_to_end` (193) and `zip.write_all` (194). -/
structure ZipOracle where
  walkErr : RPath → Option String
  startFileErr : RPath → Option String
  openErr : RPath → Option String
  readErr : RPath → Option String
  writeErr : RPath → Option String

/-- The oracle under which every archiving step succeeds. -/
def cleanZipOracle : ZipOracle :=
  { walkErr := fun _ => none
    startFileErr := fun _ => none
    openErr := fun _ => none
    readErr := fun _ => none
    writeErr := fun _ => none }

/-- The recursive traversal `WalkDir::new(&path_clone)`: every stored
entry lying in the subtree of `p`, in filesystem order. -/
def walk (fs : FS) (p : RPath) : List (RPath × Node) :=
  fs.filter (fun e => FS.isUnder e.1 p)

/-- Embedding of `path.strip_prefix(parent_dir)` rendered back to a string: the
components after the parent, joined with `"/"`. -/
def relName (parent : RPath) (q : RPath) : String :=
  String.intercalate "/" (q.comps.drop parent.comps.length)

/-- One iteration of the archiving loop (lines 182-196): check the walk
entry, skip directories, and for a regular file run `start_file`,
`open`, `read_to_end` and `write_all`, appending a `Stored` archive
entry named relative to the parent. -/
def zipStep (oracle : ZipOracle) (parent : RPath) (acc : List ZipEntry)
    (e : RPath × Node) : Except String (List ZipEntry) :=
  match oracle.walkErr e.1 with
  | some m => Except.error m
  | none =>
    match e.2 with
    | Node.dir => Except.ok acc
    | Node.file content =>
      match oracle.startFileErr e.1 with
      | some m => Except.error m
      | none =>
        match oracle.openErr e.1 with
        | some m => Except.error m
        | none =>
          match oracle.readErr e.1 with
          | some m => Except.error m
          | none =>
            match oracle.writeErr e.1 with
            | some m => Except.error m
            | none =>
              Except.ok (acc ++
                [{ name := relName parent e.1, stored := true, content := content }])

/-- Fold the archiving loop over the walk results, stopping at the
first failing step. -/
def zipFold (oracle : ZipOracle) (parent : RPath) :
    List ZipEntry → List (RPath × Node) → Except String (List ZipEntry)
  | acc, [] => Except.ok acc
  | acc, e :: rest =>
    match zipStep oracle parent acc e with
    | Except.error m => Except.error m
    | Except.ok acc2 => zipFold oracle parent acc2 rest

/-- The whole `spawn_blocking` closure (lines 172-199): walk the target
subtree and pack it relative to the target's parent directory. -/
def buildZip (oracle : ZipOracle) (fs : FS) (target : RPath) :
    Except String (List ZipEntry) :=
  zipFold oracle target.parentDir [] (walk fs target)

/-- Response of the `download_file` handler. -/
inductive DownloadResult
  | badRequest (msg : String)
  | notFound
  | fileBody (filename : String) (content : List Nat)
  | zipBody (filename : String) (entries : List ZipEntry)
  | serverError (msg : String)
deriving DecidableEq, Repr

/-- Embedding of `download_file` from main.rs (lines 141-212): resolve (400), 404 if
absent; stream a regular file back (500 with a fixed message if the
open fails); otherwise build the zip archive of the directory,
answering 500 with the step's error if any archiving step failed. -/
def download_file (oracle : ZipOracle) (fs : FS) (path : String) : DownloadResult :=
  match resolve_path (some path) with
  | Except.error e => DownloadResult.badRequest e
  | Except.ok p =>
    if !FS.existsAt fs p then DownloadResult.notFound
    else if FS.isFile fs p then
      match oracle.openErr p with
      | some _ => DownloadResult.serverError "Could not open file"
      | none =>
        match FS.lookup fs p with
        | some (Node.file content) =>
          DownloadResult.fileBody (p.comps.getLastD "") content
        | _ => DownloadResult.serverError "Could not open file"
    else
      match buildZip oracle fs p with
      | Except.ok entries =>
        DownloadResult.zipBody (p.comps.getLastD "" ++ ".zip") entries
      | Except.error e => DownloadResult.serverError e

/-- Response of the `delete_file` handler. -/
inductive DeleteResult
  | deleted
  | badRequest (msg : String)
  | notFound
  | serverError (msg : String)
deriving DecidableEq, Repr

/-- Embedding of `delete_file` from main.rs (lines 220-240): resolve (400), 404 if
absent, recursive removal for a directory, single removal otherwise. -/
def delete_file (fs : FS) (path : String) : FS × DeleteResult :=
  match resolve_path (some path) with
  | Except.error e => (fs, DeleteResult.badRequest e)
  | Except.ok p =>
    if !FS.existsAt fs p then (fs, DeleteResult.notFound)
    else if FS.isDir fs p then (FS.removeTree fs p, DeleteResult.deleted)
    else (FS.removeKey fs p, DeleteResult.deleted)

/-- The archive member a walk entry contributes: nothing for a
directory, a `Stored` entry named relative to `parent` for a file. -/
def zipFileOf (parent : RPath) (e : RPath × Node) : Option ZipEntry :=
  match e.2 with
  | Node.dir => none
  | Node.file content =>
    some { name := relName parent e.1, stored := true, content := content }

/-- All archiving steps succeed on this walk entry. -/
def stepClean (oracle : ZipOracle) (e : RPath × Node) : Bool :=
  (oracle.walkErr e.1).isNone &&
    (match e.2 with
     | Node.dir => true
     | Node.file _ =>
       (oracle.startFileErr e.1).isNone && (oracle.openErr e.1).isNone &&
         (oracle.readErr e.1).isNone && (oracle.writeErr e.1).isNone)

/-- The filesystem containing a regular file at "storage/a", blocking
the directory chain of "a/b". -/
def fsFileParent : FS :=
  [(storageRoot, Node.dir),
   ({ absolute := false, comps := ["storage", "a"] }, Node.file [])]

/-- Demo tree: directory "storage/d" holding "a.txt" and "sub/b.txt". -/
def fsZipDemo : FS :=
  [(storageRoot, Node.dir),
   ({ absolute := false, comps := ["storage", "d"] }, Node.dir),
   ({ absolute := false, comps := ["storage", "d", "a.txt"] }, Node.file [1]),
   ({ absolute := false, comps := ["storage", "d", "sub"] }, Node.dir),
   ({ absolute := false, comps := ["storage", "d", "sub", "b.txt"] }, Node.file [2])]

/-! ## General lemmas about the embedding -/

theorem FS.lookup_filterKey (pd : RPath → Bool) (fs : FS) (q : RPath) :
    FS.lookup (fs.filter (fun e => pd e.1)) q =
      if pd q = true then FS.lookup fs q else none := by
  induction fs with
  | nil => cases pd q <;> simp [FS.lookup]
  | cons e rest ih =>
    obtain ⟨a, n⟩ := e
    by_cases haq : a = q
    · subst haq
      cases hpa : pd a with
      | true => simp [List.filter_cons, hpa, FS.lookup]
      | false => simp [List.filter_cons, hpa, FS.lookup, ih]
    · cases hpa : pd a with
      | true => simp [List.filter_cons, hpa, FS.lookup, haq, ih]
      | false => simp [List.filter_cons, hpa, FS.lookup, haq, ih]

theorem FS.lookup_insert (fs : FS) (p : RPath) (n : Node) (q : RPath) :
    FS.lookup (FS.insert fs p n) q = if q = p then some n else FS.lookup fs q := by
  unfold FS.insert
  rw [show FS.lookup ((p, n) :: fs.filter (fun e => decide (e.1 ≠ p))) q =
        (if p = q then some n
         else FS.lookup (fs.filter (fun e => decide (e.1 ≠ p))) q) from rfl]
  rw [FS.lookup_filterKey (fun k => decide (k ≠ p)) fs q]
  by_cases hq : q = p
  · subst hq; simp
  · simp [hq, Ne.symm hq]

theorem FS.lookup_removeTree (fs : FS) (p q : RPath) :
    FS.lookup (FS.removeTree fs p) q =
      if FS.isUnder q p = true then none else FS.lookup fs q := by
  unfold FS.removeTree
  rw [FS.lookup_filterKey (fun k => !FS.isUnder k p) fs q]
  cases h : FS.isUnder q p <;> simp [h]

theorem FS.lookup_removeKey (fs : FS) (p q : RPath) :
    FS.lookup (FS.removeKey fs p) q = if q = p then none else FS.lookup fs q := by
  unfold FS.removeKey
  rw [FS.lookup_filterKey (fun k => decide (k ≠ p)) fs q]
  by_cases hq : q = p
  · subst hq; simp
  · simp [hq]

theorem FS.isUnder_self (p : RPath) : FS.isUnder p p = true := by
  simp [FS.isUnder]

/-- Characterization of `str::contains("..")`: it holds exactly when the character list splits
around two consecutive dots. -/
theorem hasDotDot_iff (cs : List Char) :
    hasDotDot cs = true ↔ ∃ l r, cs = l ++ '.' :: '.' :: r := by
  induction cs with
  | nil =>
    constructor
    · intro h; simp [hasDotDot] at h
    · rintro ⟨l, r, h⟩
      apply_fun List.length at h
      simp at h
      omega
  | cons a tail ih =>
    cases tail with
    | nil =>
      constructor
      · intro h; simp [hasDotDot] at h
      · rintro ⟨l, r, h⟩
        apply_fun List.length at h
        simp at h
        omega
    | cons b rest =>
      constructor
      · intro h
        rw [hasDotDot] at h
        rcases Bool.or_eq_true_iff.mp h with h1 | h2
        · rcases Bool.and_eq_true_iff.mp h1 with ⟨ha, hb⟩
          exact ⟨[], rest, by simp [of_decide_eq_true ha, of_decide_eq_true hb]⟩
        · obtain ⟨l, r, hlr⟩ := ih.mp h2
          exact ⟨a :: l, r, by rw [List.cons_append, ← hlr]⟩
      · rintro ⟨l, r, hlr⟩
        rw [hasDotDot]
        cases l with
        | nil =>
          simp only [List.nil_append, List.cons.injEq] at hlr
          obtain ⟨ha, hb, -⟩ := hlr
          simp [ha, hb]
        | cons x l2 =>
          simp only [List.cons_append, List.cons.injEq] at hlr
          have htail : hasDotDot (b :: rest) = true := ih.mpr ⟨l2, r, hlr.2⟩
          simp [htail]

/-- After stripping leading separators the string no longer starts with
one. -/
theorem startsWithSlash_trim (s : String) :
    startsWithSlash (trimLeadingSlashes s) = false := by
  unfold trimLeadingSlashes
  induction s.data with
  | nil => rfl
  | cons c rest ih =>
    by_cases h : c = '/'
    · simpa [List.dropWhile_cons, h] using ih
    · simp [List.dropWhile_cons, h, startsWithSlash]

theorem hasDotDot_cons_slash (l : List Char) :
    hasDotDot ('/' :: l) = hasDotDot l := by
  cases l with
  | nil => rfl
  | cons b rest => simp [hasDotDot]

theorem trim_cons_slash (l : List Char) :
    trimLeadingSlashes (String.mk ('/' :: l)) = trimLeadingSlashes (String.mk l) := by
  simp [trimLeadingSlashes, List.dropWhile_cons]

/-- Unfolding equation for `resolve_path` on a present input. -/
theorem resolve_path_some (s : String) :
    resolve_path (some s) =
      if hasDotDot s.data = true then Except.error "Invalid path"
      else Except.ok (storageRoot.join (trimLeadingSlashes s)) := rfl

/-! ## Claims -/

/-- C1: path resolution fails with the "Invalid path" (bad-path) error
if and only if the client string contains the two-character
parent-reference sequence ".." anywhere in it, regardless of position;
this substring test is the only validation: every other string
resolves successfully. -/
theorem c1_resolve_path_invalid_iff_traversal (s : String) :
    ((resolve_path (some s)).isOk = false ↔
      ∃ l r, s.data = l ++ '.' :: '.' :: r) ∧
    ((resolve_path (some s)).isOk = false →
      resolve_path (some s) = Except.error "Invalid path") ∧
    ((resolve_path (some s)).isOk = true →
      resolve_path (some s) = Except.ok (storageRoot.join (trimLeadingSlashes s))) := by
  rw [resolve_path_some]
  by_cases h : hasDotDot s.data = true
  · rw [if_pos h]
    refine ⟨⟨fun _ => (hasDotDot_iff s.data).mp h, fun _ => rfl⟩, fun _ => rfl, fun hc => ?_⟩
    simp [Except.isOk, Except.toBool] at hc
  · rw [if_neg h]
    refine ⟨⟨fun hc => ?_, fun hex => ?_⟩, fun hc => ?_, fun _ => rfl⟩
    · simp [Except.isOk, Except.toBool] at hc
    · exact (h ((hasDotDot_iff s.data).mpr hex)).elim
    · simp [Except.isOk, Except.toBool] at hc

/-- Witness for C1 at the concrete inputs "a..b" (rejected: ".." sits
in the middle of the string) and "a/b" (accepted). -/
theorem c1_witness :
    resolve_path (some "a..b") = Except.error "Invalid path" ∧
    resolve_path (some "a/b") = Except.ok (storageRoot.join (trimLeadingSlashes "a/b")) :=
  ⟨(c1_resolve_path_invalid_iff_traversal "a..b").2.1 (by rfl),
   (c1_resolve_path_invalid_iff_traversal "a/b").2.2 (by rfl)⟩

/-- C2: a path passing the traversal check resolves to the storage root
joined with the input stripped of leading separators, so an
absolute-looking input (leading '/') and the corresponding relative
input resolve to the same path; an empty or absent input resolves to
the storage root itself. -/
theorem c2_resolve_path_normalizes :
    resolve_path none = Except.ok storageRoot ∧
    resolve_path (some "") = Except.ok storageRoot ∧
    (∀ s : String, resolve_path (some ("/" ++ s)) = resolve_path (some s)) ∧
    (∀ s : String, (resolve_path (some s)).isOk = true →
      resolve_path (some s) =
        Except.ok { absolute := false
                    comps := "storage" :: pathComponents (trimLeadingSlashes s) }) := by
  refine ⟨rfl, rfl, fun s => ?_, fun s h => ?_⟩
  · obtain ⟨l⟩ := s
    have hd : (("/" : String) ++ String.mk l).data = '/' :: l := by
      simp [String.data_append]
    rw [resolve_path_some, resolve_path_some]
    simp only [trimLeadingSlashes, hd, hasDotDot_cons_slash, List.dropWhile_cons]
    simp
  · rw [resolve_path_some] at h ⊢
    by_cases hd : hasDotDot s.data = true
    · rw [if_pos hd] at h
      simp [Except.isOk, Except.toBool] at h
    · rw [if_neg hd]
      have hstart := startsWithSlash_trim s
      simp [RPath.join, parsePath, hstart, storageRoot]

/-- Witness for C2 at the concrete inputs "/a/b" and "a/b". -/
theorem c2_witness :
    resolve_path (some "/a/b") = resolve_path (some "a/b") ∧
    resolve_path (some "a/b") =
      Except.ok { absolute := false
                  comps := "storage" :: pathComponents (trimLeadingSlashes "a/b") } :=
  ⟨by
    rw [show ("/a/b" : String) = "/" ++ "a/b" from rfl]
    exact c2_resolve_path_normalizes.2.2.1 "a/b",
   c2_resolve_path_normalizes.2.2.2 "a/b" (by rfl)⟩

/-- Inserting a directory never destroys an existing directory. -/
theorem FS.isDir_insert_dir (fs : FS) (p q : RPath)
    (hq : FS.isDir fs q = true) :
    FS.isDir (FS.insert fs p Node.dir) q = true := by
  unfold FS.isDir at hq ⊢
  rw [FS.lookup_insert]
  by_cases h : q = p
  · rw [if_pos h]
  · rw [if_neg h]
    exact hq

/-- A successful `mkDirChain` run preserves every existing directory. -/
theorem mkDirChain_mono_dir (abs : Bool) (todo : List String) :
    ∀ (fs fs2 : FS) (done : List String),
      mkDirChain abs fs done todo = Except.ok fs2 →
      ∀ q : RPath, FS.isDir fs q = true → FS.isDir fs2 q = true := by
  induction todo with
  | nil =>
    intro fs fs2 done h q hq
    simp only [mkDirChain, Except.ok.injEq] at h
    exact h ▸ hq
  | cons c rest ih =>
    intro fs fs2 done h q hq
    simp only [mkDirChain] at h
    cases hcur : FS.lookup fs { absolute := abs, comps := done ++ [c] } with
    | none =>
      rw [hcur] at h
      exact ih _ fs2 (done ++ [c]) h q (FS.isDir_insert_dir fs _ q hq)
    | some n =>
      cases n with
      | file content =>
        rw [hcur] at h
        simp at h
      | dir =>
        rw [hcur] at h
        exact ih fs fs2 (done ++ [c]) h q hq

/-- A successful `mkDirChain` run leaves a directory at every prefix of
the requested chain. -/
theorem mkDirChain_creates (abs : Bool) (todo : List String) :
    ∀ (fs fs2 : FS) (done : List String),
      mkDirChain abs fs done todo = Except.ok fs2 →
      ∀ j : Nat, 1 ≤ j → j ≤ todo.length →
        FS.isDir fs2 { absolute := abs, comps := done ++ todo.take j } = true := by
  induction todo with
  | nil =>
    intro fs fs2 done h j h1 h2
    simp at h2
    omega
  | cons c rest ih =>
    intro fs fs2 done h j h1 h2
    simp only [mkDirChain] at h
    have hgoal :
        ∀ fsMid : FS, mkDirChain abs fsMid (done ++ [c]) rest = Except.ok fs2 →
          FS.isDir fsMid { absolute := abs, comps := done ++ [c] } = true →
          FS.isDir fs2 { absolute := abs, comps := done ++ (c :: rest).take j } = true := by
      intro fsMid hMid hdir
      rcases Nat.lt_or_ge j 2 with hj | hj
      · have hj1 : j = 1 := by omega
        subst hj1
        simpa using mkDirChain_mono_dir abs rest fsMid fs2 (done ++ [c]) hMid _ hdir
      · obtain ⟨j2, rfl⟩ : ∃ j2, j = j2 + 1 := ⟨j - 1, by omega⟩
        have hle : j2 ≤ rest.length := by
          simpa using h2
        have := ih fsMid fs2 (done ++ [c]) hMid j2 (by omega) hle
        rw [show done ++ (c :: rest).take (j2 + 1) = (done ++ [c]) ++ rest.take j2 by
          simp [List.take_succ_cons]]
        exact this
    cases hcur : FS.lookup fs { absolute := abs, comps := done ++ [c] } with
    | none =>
      rw [hcur] at h
      refine hgoal _ h ?_
      unfold FS.isDir
      rw [FS.lookup_insert]
      simp
    | some n =>
      cases n with
      | file content =>
        rw [hcur] at h
        simp at h
      | dir =>
        rw [hcur] at h
        refine hgoal fs h ?_
        unfold FS.isDir
        rw [hcur]

/-- C3 counterexample: "a/b" is a valid path and its target
"storage/a/b" does not exist, yet `create_folder` answers with a server
error (because "storage/a" is a regular file) and creates nothing, so
the claim "for every valid path whose target does not exist, it creates
the full directory chain" is false on this input. -/
theorem c3_counterexample :
    resolve_path (some "a/b") =
      Except.ok { absolute := false, comps := ["storage", "a", "b"] } ∧
    FS.existsAt fsFileParent { absolute := false, comps := ["storage", "a", "b"] } = false ∧
    create_folder fsFileParent "a/b" =
      (fsFileParent, CreateResult.serverError "File exists") ∧
    FS.lookup (create_folder fsFileParent "a/b").1
      { absolute := false, comps := ["storage", "a", "b"] } = none :=
  ⟨rfl, by decide, by decide, by decide⟩

/-- C3 (amended): for every valid path whose target already exists the
handler answers conflict and mutates nothing; for every valid path
whose target does not exist, if the underlying directory-chain creation
succeeds the handler creates the full chain (parents included), and if
it fails (e.g. an ancestor exists as a regular file) the handler
answers with a server error and mutates nothing. -/
theorem c3_create_folder_conflict_or_chain (fs : FS) (s : String) (p : RPath)
    (hres : resolve_path (some s) = Except.ok p) :
    (FS.existsAt fs p = true → create_folder fs s = (fs, CreateResult.conflict)) ∧
    (FS.existsAt fs p = false →
      ∀ fs2, create_dir_all fs p = Except.ok fs2 →
        create_folder fs s = (fs2, CreateResult.created) ∧
        ∀ j, 1 ≤ j → j ≤ p.comps.length →
          FS.isDir fs2 { absolute := p.absolute, comps := p.comps.take j } = true) ∧
    (FS.existsAt fs p = false →
      ∀ e, create_dir_all fs p = Except.error e →
        create_folder fs s = (fs, CreateResult.serverError e)) := by
  refine ⟨fun hex => ?_, fun hex fs2 hmk => ⟨?_, ?_⟩, fun hex e hmk => ?_⟩
  · unfold create_folder
    rw [hres]
    simp [hex]
  · unfold create_folder
    rw [hres]
    simp [hex, hmk]
  · have := mkDirChain_creates p.absolute p.comps fs fs2 [] hmk
    intro j h1 h2
    simpa using this j h1 h2
  · unfold create_folder
    rw [hres]
    simp [hex, hmk]

/-- Witness for the amended C3: creating "a/b" over a storage root
containing nothing creates the chain "storage/a", "storage/a/b". -/
theorem c3_witness :
    create_folder [(storageRoot, Node.dir)] "a/b" =
      ([({ absolute := false, comps := ["storage", "a", "b"] }, Node.dir),
        ({ absolute := false, comps := ["storage", "a"] }, Node.dir),
        (storageRoot, Node.dir)], CreateResult.created) ∧
    FS.isDir [({ absolute := false, comps := ["storage", "a", "b"] }, Node.dir),
        ({ absolute := false, comps := ["storage", "a"] }, Node.dir),
        (storageRoot, Node.dir)]
      { absolute := false, comps := ["storage", "a", "b"].take 2 } = true := by
  have h := (c3_create_folder_conflict_or_chain [(storageRoot, Node.dir)] "a/b"
      { absolute := false, comps := ["storage", "a", "b"] } rfl).2.1 (by decide)
      [({ absolute := false, comps := ["storage", "a", "b"] }, Node.dir),
       ({ absolute := false, comps := ["storage", "a"] }, Node.dir),
       (storageRoot, Node.dir)] (by rfl)
  exact ⟨h.1, h.2 2 (by decide) (by decide)⟩

/-- A fully successful prefix of the part loop just advances the
filesystem state: the loop then continues on the remaining events. -/
theorem uploadLoop_append_ok (writeErr : RPath → Option String) (pre : List PartEvent) :
    ∀ (fs fs1 : FS) (dir : RPath) (evs : List PartEvent),
      uploadLoop writeErr fs dir pre = (fs1, UploadResult.ok) →
      uploadLoop writeErr fs dir (pre ++ evs) = uploadLoop writeErr fs1 dir evs := by
  induction pre with
  | nil =>
    intro fs fs1 dir evs h
    simp only [uploadLoop, Prod.mk.injEq] at h
    obtain ⟨rfl, -⟩ := h
    simp
  | cons ev rest ih =>
    intro fs fs1 dir evs h
    cases ev with
    | frameErr m => simp [uploadLoop] at h
    | part fname bytes =>
      cases fname with
      | none =>
        simp only [uploadLoop, List.cons_append] at h ⊢
        exact ih fs fs1 dir evs h
      | some n =>
        simp only [uploadLoop, List.cons_append] at h ⊢
        by_cases hn : n = ""
        · simp only [if_pos hn] at h ⊢
          exact ih fs fs1 dir evs h
        · simp only [if_neg hn] at h ⊢
          cases bytes with
          | error e => simp at h
          | ok d =>
            cases hw : writeErr (dir.join n) with
            | some e =>
              rw [hw] at h
              simp at h
            | none =>
              rw [hw] at h
              simp at h ⊢
              exact ih _ fs1 dir evs h

/-- C4 counterexample: an I/O error from a part's write makes the
handler answer with a server error (500), not a bad-request response,
and a malformed-framing error from `next_field` makes it panic
(`unwrap`), not answer bad-request; so the claim that both failures
yield a bad-request response is false at these inputs. -/
theorem c4_counterexample :
    upload_file (fun _ => some "disk full") [] (some "")
      [PartEvent.part (some "a") (Except.ok [1])] =
      ([], UploadResult.serverError "disk full") ∧
    UploadResult.serverError "disk full" ≠ UploadResult.badRequest "disk full" ∧
    upload_file (fun _ => none) [] none [PartEvent.frameErr "bad multipart"] =
      ([], UploadResult.panicked "bad multipart") ∧
    UploadResult.panicked "bad multipart" ≠ UploadResult.badRequest "bad multipart" :=
  ⟨rfl, by decide, rfl, by decide⟩

/-- C4 (amended): the handler fails fast, with every part written
before the failing one left in place (no rollback); the failure
response is: a panic (unchecked `unwrap`) for a malformed-framing error
from `next_field`, a bad-request response for a part-body read error,
and a server-error response for an I/O error from the part's write. -/
theorem c4_upload_failures (writeErr : RPath → Option String)
    (fs fs1 : FS) (dir : RPath) (pre rest : List PartEvent)
    (hpre : uploadLoop writeErr fs dir pre = (fs1, UploadResult.ok)) :
    (∀ m, uploadLoop writeErr fs dir (pre ++ PartEvent.frameErr m :: rest) =
        (fs1, UploadResult.panicked m)) ∧
    (∀ n e, n ≠ "" →
      uploadLoop writeErr fs dir
          (pre ++ PartEvent.part (some n) (Except.error e) :: rest) =
        (fs1, UploadResult.badRequest e)) ∧
    (∀ n d e, n ≠ "" → writeErr (dir.join n) = some e →
      uploadLoop writeErr fs dir
          (pre ++ PartEvent.part (some n) (Except.ok d) :: rest) =
        (fs1, UploadResult.serverError e)) := by
  refine ⟨fun m => ?_, fun n e hn => ?_, fun n d e hn hw => ?_⟩ <;>
    rw [uploadLoop_append_ok writeErr pre fs fs1 dir _ hpre]
  · rfl
  · simp [uploadLoop, hn]
  · simp [uploadLoop, hn, hw]

/-- Witness for the amended C4: one part is written, then the second
part's write fails; the response is a server error and the first part
stays in place. -/
theorem c4_witness :
    uploadLoop (fun q => if q = storageRoot.join "bad" then some "io" else none)
      [] storageRoot
      [PartEvent.part (some "x") (Except.ok [7]),
       PartEvent.part (some "bad") (Except.ok [5])] =
      ([({ absolute := false, comps := ["storage", "x"] }, Node.file [7])],
        UploadResult.serverError "io") := by
  have h := (c4_upload_failures
      (fun q => if q = storageRoot.join "bad" then some "io" else none)
      [] [({ absolute := false, comps := ["storage", "x"] }, Node.file [7])] storageRoot
      [PartEvent.part (some "x") (Except.ok [7])] [] (by rfl)).2.2 "bad" [5] "io"
      (by decide) (by rfl)
  simpa using h

/-- When the resolved path is a directory, `list_files` maps every
immediate child to an entry. -/
theorem list_files_dir (ftErr : RPath → Bool) (fs : FS) (qp : Option String)
    (p : RPath) (hres : resolve_path qp = Except.ok p)
    (hdir : FS.isDir fs p = true) :
    list_files ftErr fs qp =
      Except.ok ((fs.filter (fun e => FS.isChildOf e.1 p)).map (fun e =>
        { name := e.1.comps.getLastD ""
          is_dir := if ftErr e.1 then false else decide (e.2 = Node.dir) })) := by
  unfold list_files
  rw [hres]
  simp [hdir]

/-- C5: parts are processed sequentially in order; a part with no file
name or an empty file name is skipped and leaves the state unchanged; a
part with a non-empty file name is written to destination/file-name,
replacing any existing file of that name; hence uploading two files
with the same name to the same destination in sequence leaves exactly
the second file's content at that path. -/
theorem c5_upload_sequential_overwrite :
    (∀ (writeErr : RPath → Option String) (fs : FS) (dir : RPath) b rest,
      uploadLoop writeErr fs dir (PartEvent.part none b :: rest) =
        uploadLoop writeErr fs dir rest) ∧
    (∀ (writeErr : RPath → Option String) (fs : FS) (dir : RPath) b rest,
      uploadLoop writeErr fs dir (PartEvent.part (some "") b :: rest) =
        uploadLoop writeErr fs dir rest) ∧
    (∀ (writeErr : RPath → Option String) (fs : FS) (dir : RPath) n d rest,
      n ≠ "" → writeErr (dir.join n) = none →
      uploadLoop writeErr fs dir (PartEvent.part (some n) (Except.ok d) :: rest) =
        uploadLoop writeErr (FS.insert fs (dir.join n) (Node.file d)) dir rest) ∧
    (∀ (fs : FS) (qp : Option String) (dir : RPath) (n : String) d1 d2, n ≠ "" →
      resolve_path qp = Except.ok dir →
      (upload_file (fun _ => none) fs qp
          [PartEvent.part (some n) (Except.ok d1),
           PartEvent.part none (Except.ok []),
           PartEvent.part (some "") (Except.ok []),
           PartEvent.part (some n) (Except.ok d2)]).2 = UploadResult.ok ∧
      FS.lookup (upload_file (fun _ => none) fs qp
          [PartEvent.part (some n) (Except.ok d1),
           PartEvent.part none (Except.ok []),
           PartEvent.part (some "") (Except.ok []),
           PartEvent.part (some n) (Except.ok d2)]).1 (dir.join n) =
        some (Node.file d2)) := by
  refine ⟨fun writeErr fs dir b rest => rfl, fun writeErr fs dir b rest => rfl,
    fun writeErr fs dir n d rest hn hw => ?_, fun fs qp dir n d1 d2 hn hres => ?_⟩
  · simp [uploadLoop, hn, hw]
  · unfold upload_file
    rw [hres]
    simp only [uploadLoop, if_neg hn]
    simp only [if_true]
    refine ⟨by trivial, ?_⟩
    show FS.lookup (FS.insert (FS.insert fs (dir.join n) (Node.file d1))
        (dir.join n) (Node.file d2)) (dir.join n) = some (Node.file d2)
    rw [FS.lookup_insert]
    simp

/-- Witness for C5: two same-named parts with skipped parts in between
leave the second content at destination "d"/"f.txt". -/
theorem c5_witness :
    (upload_file (fun _ => none) [] (some "d")
        [PartEvent.part (some "f.txt") (Except.ok [1]),
         PartEvent.part none (Except.ok []),
         PartEvent.part (some "") (Except.ok []),
         PartEvent.part (some "f.txt") (Except.ok [2])]).2 = UploadResult.ok ∧
    FS.lookup (upload_file (fun _ => none) [] (some "d")
        [PartEvent.part (some "f.txt") (Except.ok [1]),
         PartEvent.part none (Except.ok []),
         PartEvent.part (some "") (Except.ok []),
         PartEvent.part (some "f.txt") (Except.ok [2])]).1
      ((storageRoot.join "d").join "f.txt") = some (Node.file [2]) :=
  c5_upload_sequential_overwrite.2.2.2 [] (some "d") (storageRoot.join "d")
    "f.txt" [1] [2] (by decide) (by rfl)

/-- C6: when the resolved path is not an existing directory (it is
absent, or it is a regular file), the list operation returns the empty
array rather than an error response. -/
theorem c6_list_missing_dir_empty (ftErr : RPath → Bool) (fs : FS)
    (qp : Option String) (p : RPath)
    (hres : resolve_path qp = Except.ok p)
    (hnd : FS.isDir fs p = false) :
    list_files ftErr fs qp = Except.ok [] := by
  unfold list_files
  rw [hres]
  simp [hnd]

/-- Witness for C6: listing the non-existent directory "nope" over a
storage root containing nothing yields the empty array. -/
theorem c6_witness :
    list_files (fun _ => false) [(storageRoot, Node.dir)] (some "nope") = Except.ok [] :=
  c6_list_missing_dir_empty (fun _ => false) [(storageRoot, Node.dir)] (some "nope")
    (storageRoot.join "nope") rfl (by decide)

/-- C10: an immediate child whose file-type query fails is still
included in the listing, with its is_dir flag set to false. -/
theorem c10_list_ftype_error_false (ftErr : RPath → Bool) (fs : FS)
    (qp : Option String) (p child : RPath) (n : Node) (es : List FileEntry)
    (hres : resolve_path qp = Except.ok p)
    (hdir : FS.isDir fs p = true)
    (hmem : (child, n) ∈ fs)
    (hchild : FS.isChildOf child p = true)
    (hft : ftErr child = true)
    (hlist : list_files ftErr fs qp = Except.ok es) :
    { name := child.comps.getLastD "", is_dir := false } ∈ es := by
  rw [list_files_dir ftErr fs qp p hres hdir] at hlist
  injection hlist with h
  subst h
  have hf : (fun e : RPath × Node =>
      ({ name := e.1.comps.getLastD ""
         is_dir := if ftErr e.1 then false else decide (e.2 = Node.dir) } : FileEntry))
        (child, n) =
      { name := child.comps.getLastD "", is_dir := false } := by
    simp [hft]
  rw [← hf]
  exact List.mem_map_of_mem _ (List.mem_filter.mpr ⟨hmem, by simpa using hchild⟩)

/-- Witness for C10: the child "storage/s" with a failing file-type
query is listed with is_dir = false. -/
theorem c10_witness :
    ({ name := "s", is_dir := false } : FileEntry) ∈
      [({ name := "s", is_dir := false } : FileEntry)] :=
  c10_list_ftype_error_false (fun _ => true)
    [(storageRoot, Node.dir), ({ absolute := false, comps := ["storage", "s"] }, Node.dir)]
    none storageRoot { absolute := false, comps := ["storage", "s"] } Node.dir
    [{ name := "s", is_dir := false }] rfl (by decide) (by decide) (by decide) rfl (by rfl)

/-- A path that is a directory exists. -/
theorem FS.existsAt_of_isDir (fs : FS) (p : RPath)
    (h : FS.isDir fs p = true) : FS.existsAt fs p = true := by
  unfold FS.isDir at h
  unfold FS.existsAt
  cases hlk : FS.lookup fs p with
  | none => rw [hlk] at h; simp at h
  | some n => rfl

/-- C8: deleting a valid path answers "not found" when the target is
absent; removes a directory recursively with all of its contents;
removes a single file otherwise; and nothing protects the storage root
itself: the empty path resolves to the root, and if the root is a
directory the delete removes it with everything below it. -/
theorem c8_delete_behaviour (fs : FS) (s : String) (p : RPath)
    (hres : resolve_path (some s) = Except.ok p) :
    (FS.existsAt fs p = false → delete_file fs s = (fs, DeleteResult.notFound)) ∧
    (FS.isDir fs p = true →
      delete_file fs s = (FS.removeTree fs p, DeleteResult.deleted) ∧
      ∀ q, FS.isUnder q p = true → FS.lookup (FS.removeTree fs p) q = none) ∧
    (FS.existsAt fs p = true → FS.isDir fs p = false →
      delete_file fs s = (FS.removeKey fs p, DeleteResult.deleted) ∧
      FS.lookup (FS.removeKey fs p) p = none ∧
      ∀ q, q ≠ p → FS.lookup (FS.removeKey fs p) q = FS.lookup fs q) ∧
    (resolve_path (some "") = Except.ok storageRoot ∧
      ∀ fs0 : FS, FS.isDir fs0 storageRoot = true →
        delete_file fs0 "" = (FS.removeTree fs0 storageRoot, DeleteResult.deleted)) := by
  have hroot : ∀ fs0 : FS, FS.isDir fs0 storageRoot = true →
      delete_file fs0 "" = (FS.removeTree fs0 storageRoot, DeleteResult.deleted) := by
    intro fs0 h0
    unfold delete_file
    rw [show resolve_path (some "") = Except.ok storageRoot from rfl]
    simp [FS.existsAt_of_isDir fs0 storageRoot h0, h0]
  refine ⟨fun hnx => ?_, fun hd => ⟨?_, ?_⟩, fun hex hnd => ⟨?_, ?_, ?_⟩, rfl, hroot⟩
  · unfold delete_file
    rw [hres]
    simp [hnx]
  · unfold delete_file
    rw [hres]
    simp [FS.existsAt_of_isDir fs p hd, hd]
  · intro q hq
    rw [FS.lookup_removeTree]
    simp [hq]
  · unfold delete_file
    rw [hres]
    simp [hex, hnd]
  · rw [FS.lookup_removeKey]
    simp
  · intro q hq
    rw [FS.lookup_removeKey]
    simp [hq]

/-- Witness for C8: deleting directory "d" removes it together with the
file "storage/d/f" inside it. -/
theorem c8_witness :
    delete_file [(storageRoot, Node.dir),
        ({ absolute := false, comps := ["storage", "d"] }, Node.dir),
        ({ absolute := false, comps := ["storage", "d", "f"] }, Node.file [1])] "d" =
      (FS.removeTree [(storageRoot, Node.dir),
          ({ absolute := false, comps := ["storage", "d"] }, Node.dir),
          ({ absolute := false, comps := ["storage", "d", "f"] }, Node.file [1])]
        { absolute := false, comps := ["storage", "d"] }, DeleteResult.deleted) ∧
    FS.lookup (FS.removeTree [(storageRoot, Node.dir),
        ({ absolute := false, comps := ["storage", "d"] }, Node.dir),
        ({ absolute := false, comps := ["storage", "d", "f"] }, Node.file [1])]
        { absolute := false, comps := ["storage", "d"] })
      { absolute := false, comps := ["storage", "d", "f"] } = none := by
  have h := (c8_delete_behaviour [(storageRoot, Node.dir),
      ({ absolute := false, comps := ["storage", "d"] }, Node.dir),
      ({ absolute := false, comps := ["storage", "d", "f"] }, Node.file [1])] "d"
      { absolute := false, comps := ["storage", "d"] } rfl).2.1 (by decide)
  exact ⟨h.1, h.2 { absolute := false, comps := ["storage", "d", "f"] } (by decide)⟩

/-- A clean step appends exactly the file's archive entry (nothing for
a directory). -/
theorem zipStep_clean (oracle : ZipOracle) (parent : RPath) (acc : List ZipEntry)
    (e : RPath × Node) (h : stepClean oracle e = true) :
    zipStep oracle parent acc e = Except.ok (acc ++ (zipFileOf parent e).toList) := by
  obtain ⟨q, n⟩ := e
  cases n with
  | dir =>
    unfold stepClean at h
    simp only [Bool.and_eq_true, Option.isNone_iff_eq_none] at h
    simp [zipStep, zipFileOf, h.1]
  | file content =>
    unfold stepClean at h
    simp only [Bool.and_eq_true, Option.isNone_iff_eq_none] at h
    obtain ⟨hw, ⟨⟨h1, h2⟩, h3⟩, h4⟩ := h
    simp [zipStep, zipFileOf, hw, h1, h2, h3, h4]

/-- A failing step produces an archiving error. -/
theorem zipStep_fail (oracle : ZipOracle) (parent : RPath) (acc : List ZipEntry)
    (e : RPath × Node) (h : stepClean oracle e = false) :
    ∃ m, zipStep oracle parent acc e = Except.error m := by
  obtain ⟨q, n⟩ := e
  cases hw : oracle.walkErr q with
  | some m => exact ⟨m, by simp [zipStep, hw]⟩
  | none =>
    cases n with
    | dir => simp [stepClean, hw] at h
    | file content =>
      simp only [stepClean, hw, Option.isNone_none, Bool.true_and] at h
      cases h1 : oracle.startFileErr q with
      | some m => exact ⟨m, by simp [zipStep, hw, h1]⟩
      | none =>
        cases h2 : oracle.openErr q with
        | some m => exact ⟨m, by simp [zipStep, hw, h1, h2]⟩
        | none =>
          cases h3 : oracle.readErr q with
          | some m => exact ⟨m, by simp [zipStep, hw, h1, h2, h3]⟩
          | none =>
            cases h4 : oracle.writeErr q with
            | some m => exact ⟨m, by simp [zipStep, hw, h1, h2, h3, h4]⟩
            | none =>
              rw [h1, h2, h3, h4] at h
              simp at h

/-- When every step is clean the archiving fold returns exactly the
file entries of the walk, in order. -/
theorem zipFold_clean (oracle : ZipOracle) (parent : RPath)
    (l : List (RPath × Node)) :
    ∀ acc, (∀ e ∈ l, stepClean oracle e = true) →
      zipFold oracle parent acc l =
        Except.ok (acc ++ l.filterMap (zipFileOf parent)) := by
  induction l with
  | nil => intro acc h; simp [zipFold]
  | cons e rest ih =>
    intro acc h
    have he := h e (by simp)
    have hstep : zipFold oracle parent acc (e :: rest) =
        zipFold oracle parent (acc ++ (zipFileOf parent e).toList) rest := by
      simp only [zipFold]
      rw [zipStep_clean oracle parent acc e he]
    rw [hstep, ih _ (fun x hx => h x (List.mem_cons_of_mem e hx))]
    cases hz : zipFileOf parent e <;> simp [List.filterMap_cons, hz]

/-- When some step fails the archiving fold returns an error. -/
theorem zipFold_fail (oracle : ZipOracle) (parent : RPath)
    (l : List (RPath × Node)) :
    ∀ acc, (∃ e ∈ l, stepClean oracle e = false) →
      ∃ m, zipFold oracle parent acc l = Except.error m := by
  induction l with
  | nil => intro acc h; simp at h
  | cons e rest ih =>
    intro acc h
    cases hc : stepClean oracle e with
    | false =>
      obtain ⟨m, hm⟩ := zipStep_fail oracle parent acc e hc
      refine ⟨m, ?_⟩
      simp only [zipFold]
      rw [hm]
    | true =>
      have hex : ∃ x ∈ rest, stepClean oracle x = false := by
        obtain ⟨x, hx, hxf⟩ := h
        rcases List.mem_cons.mp hx with rfl | hx2
        · rw [hc] at hxf; cases hxf
        · exact ⟨x, hx2, hxf⟩
      obtain ⟨m, hm⟩ := ih (acc ++ (zipFileOf parent e).toList) hex
      refine ⟨m, ?_⟩
      simp only [zipFold]
      rw [zipStep_clean oracle parent acc e hc]
      exact hm

/-- Every walk entry of a non-root target, cut relative to the target's
parent, starts with the target directory's own name. -/
theorem walk_top_component (fs : FS) (p : RPath) (hp : p.comps ≠ []) :
    ∀ e ∈ walk fs p,
      e.1.comps.drop p.parentDir.comps.length =
        p.comps.getLastD "" :: e.1.comps.drop p.comps.length := by
  intro e he
  have hu : FS.isUnder e.1 p = true := by
    have := (List.mem_filter.mp he).2
    simpa using this
  unfold FS.isUnder at hu
  simp only [Bool.and_eq_true, decide_eq_true_eq] at hu
  obtain ⟨-, htake⟩ := hu
  obtain ⟨l0, a, hpc⟩ := (List.eq_nil_or_concat p.comps).resolve_left hp
  rw [List.concat_eq_append] at hpc
  have hpar : (RPath.parentDir p).comps = l0 := by
    unfold RPath.parentDir
    rw [if_neg hp]
    simp [hpc, List.dropLast_concat]
  have hlast : p.comps.getLastD "" = a := by
    rw [hpc]
    exact List.getLastD_concat "" a l0
  have hL : p.comps.length = l0.length + 1 := by
    rw [hpc]
    simp
  have hsplit : e.1.comps = (l0 ++ [a]) ++ e.1.comps.drop p.comps.length := by
    conv_lhs => rw [← List.take_append_drop p.comps.length e.1.comps]
    rw [htake, hpc]
  rw [hpar, hlast]
  conv_lhs => rw [hsplit]
  rw [List.append_assoc, List.drop_left]
  rfl

/-- C7: downloading an existing directory yields an archive made of
exactly the regular files found by a full recursive traversal of the
subtree, each written with the Stored (no-deflate) method, with entry
names relative to the target's parent (so every entry starts with the
target directory's own name), directories contributing no entries of
their own; if any walk, file-read or archive-write step fails, the
handler answers with a server error and returns no partial archive. -/
theorem c7_download_dir_archive (oracle : ZipOracle) (fs : FS) (s : String)
    (p : RPath)
    (hres : resolve_path (some s) = Except.ok p)
    (hdir : FS.lookup fs p = some Node.dir) :
    ((∀ e ∈ walk fs p, stepClean oracle e = true) →
      download_file oracle fs s =
        DownloadResult.zipBody (p.comps.getLastD "" ++ ".zip")
          ((walk fs p).filterMap (zipFileOf p.parentDir)) ∧
      (∀ z ∈ (walk fs p).filterMap (zipFileOf p.parentDir), z.stored = true) ∧
      (p.comps ≠ [] → ∀ e ∈ walk fs p,
        e.1.comps.drop p.parentDir.comps.length =
          p.comps.getLastD "" :: e.1.comps.drop p.comps.length)) ∧
    ((∃ e ∈ walk fs p, stepClean oracle e = false) →
      ∃ m, download_file oracle fs s = DownloadResult.serverError m) := by
  have hex : FS.existsAt fs p = true := by
    unfold FS.existsAt
    rw [hdir]
    rfl
  have hnf : FS.isFile fs p = false := by
    unfold FS.isFile
    rw [hdir]
  have hdl : download_file oracle fs s =
      (match buildZip oracle fs p with
       | Except.ok entries =>
         DownloadResult.zipBody (p.comps.getLastD "" ++ ".zip") entries
       | Except.error e => DownloadResult.serverError e) := by
    unfold download_file
    rw [hres]
    simp [hex, hnf]
  constructor
  · intro hclean
    have hz : buildZip oracle fs p =
        Except.ok ((walk fs p).filterMap (zipFileOf p.parentDir)) := by
      unfold buildZip
      rw [zipFold_clean oracle p.parentDir (walk fs p) [] hclean]
      simp
    refine ⟨?_, ?_, fun hp => walk_top_component fs p hp⟩
    · rw [hdl, hz]
    · intro z hz2
      obtain ⟨e, he, hze⟩ := List.mem_filterMap.mp hz2
      obtain ⟨q, n⟩ := e
      cases n with
      | dir => simp [zipFileOf] at hze
      | file content =>
        unfold zipFileOf at hze
        simp only [Option.some.injEq] at hze
        rw [← hze]
  · intro hfail
    obtain ⟨m, hm⟩ := zipFold_fail oracle p.parentDir (walk fs p) [] hfail
    refine ⟨m, ?_⟩
    rw [hdl]
    unfold buildZip
    rw [hm]

/-- Witness for C7 on the demo tree: the archive of "d" holds exactly
"d/a.txt" and "d/sub/b.txt", uncompressed. -/
theorem c7_witness :
    download_file cleanZipOracle fsZipDemo "d" =
      DownloadResult.zipBody "d.zip"
        [{ name := "d/a.txt", stored := true, content := [1] },
         { name := "d/sub/b.txt", stored := true, content := [2] }] := by
  have h := ((c7_download_dir_archive cleanZipOracle fsZipDemo "d"
      { absolute := false, comps := ["storage", "d"] } rfl (by decide)).1
      (by decide)).1
  exact h

/-- C9: an accepted part is written to the resolved destination joined
with the client-supplied file name, with no traversal or separator
check on the file name; concretely, the file name "../../evil" under
destination "d" is stored at a path whose lexical normalization lies
outside both the destination directory and the storage root. -/
theorem c9_upload_filename_unchecked :
    (∀ (writeErr : RPath → Option String) (fs : FS) (dir : RPath)
        (n : String) (d : List Nat) rest, n ≠ "" →
      writeErr (dir.join n) = none →
      uploadLoop writeErr fs dir (PartEvent.part (some n) (Except.ok d) :: rest) =
        uploadLoop writeErr (FS.insert fs (dir.join n) (Node.file d)) dir rest) ∧
    (FS.lookup (upload_file (fun _ => none) [] (some "d")
        [PartEvent.part (some "../../evil") (Except.ok [7])]).1
        ((storageRoot.join "d").join "../../evil") = some (Node.file [7]) ∧
      FS.isUnder
        { absolute := ((storageRoot.join "d").join "../../evil").absolute
          comps := normComps ((storageRoot.join "d").join "../../evil").comps }
        (storageRoot.join "d") = false ∧
      FS.isUnder
        { absolute := ((storageRoot.join "d").join "../../evil").absolute
          comps := normComps ((storageRoot.join "d").join "../../evil").comps }
        storageRoot = false) := by
  refine ⟨fun writeErr fs dir n d rest hn hw => ?_, by decide, by decide, by decide⟩
  simp [uploadLoop, hn, hw]

/-- Witness for C9: a part named "../x" is written at the join of the
destination with "../x" itself. -/
theorem c9_witness :
    uploadLoop (fun _ => none) [] storageRoot
      [PartEvent.part (some "../x") (Except.ok [1])] =
      uploadLoop (fun _ => none)
        (FS.insert [] (storageRoot.join "../x") (Node.file [1])) storageRoot [] :=
  c9_upload_filename_unchecked.1 (fun _ => none) [] storageRoot "../x" [1] []
    (by decide) rfl
